import Mathlib

/-!
# Verification of the Peredvizhnikov Engine sources against their specification

Shallow embedding of the repository's C++ sources:

* `src/src/logger.cpp`   — colorized console logging (`log`, `log_ex`, `fmt::cat`,
  `s_level_color_map`, `colortext`);
* `src/src/meta.cpp`     — compile-time helpers (`constexpr_for`);
* `src/src/window.cpp`   — the `Window` task (affinity check in the constructor,
  `any_cast` of the message payload, `Reply` via the weak sender reference);
* `src/test/test_lockfree_queue.cpp` — the multi-producer/multi-consumer queue test
  (`producer`, `consumer`, `test`, `verify`).

The lock-free queue, `Task`, and `Scheduler` modules themselves are imported by these
files but are not part of the source tree under verification; where a claim depends on
them they are modelled from the specification (each such definition is marked
`Modelled from the spec:` in its doc comment).  Concurrency is embedded as an
interleaving (small-step) semantics: the spec states the queue is linearizable and the
shared counters are atomic, so every concurrent run corresponds to a sequential
interleaving of the atomic steps modelled here.
-/

namespace pe

/-! ## Lock-free MPMC queue (modelled from the spec, §4.1)

The `lockfree_queue` module is not in the source tree; only its contract is specified:
a bounded, fixed-capacity FIFO queue; `Enqueue` never blocks and succeeds unless the
queue is at fixed capacity, in which case it fails with a Full condition; `Dequeue`
never blocks and returns either a value or an empty result.  Enqueue into a Terminated
task's mailbox fails with a Closed condition (§4.3, §7).
-/

/-- The error conditions an enqueue can report (spec §7: capacity errors are `Full`,
closed-target errors are `Closed`). -/
inductive EnqueueError
  | eFull
  | eClosed
deriving DecidableEq, Repr

/-- Modelled from the spec: the bounded lock-free MPMC queue of §4.1.  The queue is
linearizable, so its concurrent behaviour is that of a sequential FIFO list of items
with a fixed capacity; `items` lists the elements in dequeue order. -/
structure LockfreeQueue (α : Type) where
  capacity : Nat
  items : List α

/-- Modelled from the spec: `Enqueue(value)` never blocks (it is a total function) and
succeeds unless the queue is at fixed capacity, in which case it fails with a Full
condition.  The queue performs no internal retry and drops nothing: on failure the
state is unchanged and the caller decides what to do. -/
def LockfreeQueue.Enqueue {α : Type} (q : LockfreeQueue α) (value : α) :
    Except EnqueueError (LockfreeQueue α) :=
  if q.items.length = q.capacity then
    .error .eFull
  else
    .ok { q with items := q.items ++ [value] }

/-- Modelled from the spec: `Dequeue()` never blocks and returns either a value or an
empty result, together with the remaining queue. -/
def LockfreeQueue.Dequeue {α : Type} (q : LockfreeQueue α) :
    Option α × LockfreeQueue α :=
  match q.items with
  | [] => (none, q)
  | x :: rest => (some x, { q with items := rest })

/-! ## Task states and mailbox enqueue (modelled from the spec, §3, §4.3) -/

/-- Task lifecycle states (spec §3). -/
inductive TaskState
  | eCreated
  | eRunnable
  | eRunning
  | eSuspendedAwaitingMessage
  | eTerminated
deriving DecidableEq, Repr

/-- Modelled from the spec: a Task owns a mailbox (an instance of the lock-free queue,
capacity fixed at construction) and has a lifecycle state.  Mailbox messages are left
abstract in the type parameter `μ`. -/
structure TaskModel (μ : Type) where
  state : TaskState
  mailbox : LockfreeQueue μ

/-- Modelled from the spec: enqueuing a Message into a Task's mailbox.  A Terminated
task accepts no further Messages: the enqueue fails with the Closed condition (§4.3);
otherwise the mailbox's own capacity check applies (§7(b)). -/
def TaskModel.enqueueMessage {μ : Type} (t : TaskModel μ) (m : μ) :
    Except EnqueueError (TaskModel μ) :=
  if t.state = .eTerminated then
    .error .eClosed
  else
    match t.mailbox.Enqueue m with
    | .error e => .error e
    | .ok q => .ok { t with mailbox := q }

/-- Modelled from the spec: a Terminated Task still answers queries about its own final
state (§4.3); the query simply reads the state field. -/
def TaskModel.queryState {μ : Type} (t : TaskModel μ) : TaskState :=
  t.state

/-! ## Logger (`src/src/logger.cpp`) -/

/-- `enum class LogLevel` from logger.cpp (`eNumValues` is only an array bound and is
not a level). -/
inductive LogLevel
  | eInfo
  | eNotice
  | eWarning
  | eError
deriving DecidableEq, Repr

/-- `enum class TextColor` from logger.cpp. -/
inductive TextColor
  | eWhite
  | eGreen
  | eYellow
  | eRed
  | eBlue
  | eMagenta
  | eCyan
  | eBrightGreen
  | eBrightYellow
  | eBrightRed
  | eBrightBlue
  | eBrightMagenta
  | eBrightCyan
deriving DecidableEq, Repr

/-- `s_level_color_map` from logger.cpp: the severity-to-color table. -/
def s_level_color_map : LogLevel → TextColor
  | .eInfo => .eWhite
  | .eNotice => .eGreen
  | .eWarning => .eYellow
  | .eError => .eRed

/-- `ANSIEscapeCode` / `color_code_map` from logger.cpp: the escape sequence emitted
for each color on the Linux + stdout path of `colortext`. -/
def color_code_map : TextColor → String
  | .eWhite => "\x1b[37m"
  | .eGreen => "\x1b[32m"
  | .eYellow => "\x1b[33m"
  | .eRed => "\x1b[31m"
  | .eBlue => "\x1b[34m"
  | .eMagenta => "\x1b[35m"
  | .eCyan => "\x1b[36m"
  | .eBrightGreen => "\x1b[32;1m"
  | .eBrightYellow => "\x1b[33;1m"
  | .eBrightRed => "\x1b[31;1m"
  | .eBrightBlue => "\x1b[34;1m"
  | .eBrightMagenta => "\x1b[35;1m"
  | .eBrightCyan => "\x1b[36;1m"

/-- `ANSIEscapeCode::eReset` from logger.cpp. -/
def ansi_reset : String := "\x1b[0m"

/-- `colortext` from logger.cpp on the `pe::kLinux && stream == std::cout` path: the
printable's rendering is bracketed by the color's escape code and the reset code.
(On other platforms/streams the printable is passed through unchanged; the colorized
path is the one the spec's color contract concerns.) -/
def colortext (s : String) (color : TextColor) : String :=
  color_code_map color ++ s ++ ansi_reset

/-- A type-erased logging argument as seen by `log_ex`: either an ordinary printable
whose rendering is the carried string, or the marker type `fmt::cat` (which renders as
the empty string and suppresses the neighbouring separators). -/
inductive LogArg
  | plain (s : String)
  | cat
deriving DecidableEq, Repr

/-- Whether an argument is of type `fmt::cat` (the `std::is_same_v` test inside
`getsep`). -/
def LogArg.isCat : LogArg → Bool
  | .cat => true
  | .plain _ => false

/-- The rendering of an argument by `operator<<`: `fmt::cat`'s stream operator writes
nothing. -/
def LogArg.render : LogArg → String
  | .cat => ""
  | .plain s => s

/-- The argument-printing fold of `log_ex` (logger.cpp lines 284–295): the fold
expression `((stream << getsep(args), colortext(stream, args, color)), ...)` carrying
the mutable `first` and `prev_cat` flags of the `getsep` lambda.  Returns the string
written to the stream for the argument list. -/
def log_ex_args (color : TextColor) (separator : String) :
    Bool → Bool → List LogArg → String
  | _, _, [] => ""
  | first, prev_cat, a :: rest =>
    let is_cat := a.isCat
    let sep := if first || is_cat || prev_cat then "" else separator
    sep ++ colortext a.render color ++ log_ex_args color separator false is_cat rest

/-- The complete argument portion of a `log_ex` line: the fold starts with
`first = true`, `prev_cat = false`. -/
def log_ex_body (color : TextColor) (separator : String) (args : List LogArg) :
    String :=
  log_ex_args color separator true false args

/-- One step of the logger's interaction with the stream and the optional mutex. -/
inductive LogEvent
  | acquire
  | write (s : String)
  | release
deriving DecidableEq, Repr

/-- `log_ex` from logger.cpp as its sequence of lock/stream events: the
`std::unique_lock` is constructed on entry (taking the mutex exactly when one is
supplied) and destroyed on exit, so every write to the stream happens between the
acquire and the release.  `pfx` abstracts the thread-name/thread-id/timestamp banner
written when `with_banner` is true (its exact text is runtime data). -/
def log_ex (mutexSupplied : Bool) (pfx : String) (color : TextColor)
    (separator : String) (with_banner newline : Bool) (args : List LogArg) :
    List LogEvent :=
  (if mutexSupplied then [.acquire] else [])
  ++ (if with_banner then [.write pfx] else [])
  ++ [.write (log_ex_body color separator args)]
  ++ (if newline then [.write "\n"] else [])
  ++ (if mutexSupplied then [.release] else [])

/-- `log(stream, mutex, level, args...)` from logger.cpp (lines 301–307): looks the
color up in `s_level_color_map` and calls `log_ex` with separator `" "`, banner and
newline enabled. -/
def log (mutexSupplied : Bool) (pfx : String) (level : LogLevel)
    (args : List LogArg) : List LogEvent :=
  log_ex mutexSupplied pfx (s_level_color_map level) " " true true args

/-- Specification-side rendering of the separator between two consecutive arguments:
the separator is printed between every pair of consecutive arguments except
immediately before or immediately after a `fmt::cat` argument.  Written from the
claim's words, to be compared against the `log_ex` fold. -/
def sepBetween (separator : String) (prev cur : LogArg) : String :=
  if prev.isCat || cur.isCat then "" else separator

/-- Specification-side body: the tail of the argument list, each argument preceded by
`sepBetween` with its left neighbour. -/
def bodySpecTail (color : TextColor) (separator : String) :
    LogArg → List LogArg → String
  | _, [] => ""
  | prev, b :: rest =>
    sepBetween separator prev b ++ colortext b.render color
      ++ bodySpecTail color separator b rest

/-- Specification-side body: no separator before the first argument, then
`bodySpecTail`. -/
def bodySpec (color : TextColor) (separator : String) : List LogArg → String
  | [] => ""
  | a :: rest => colortext a.render color ++ bodySpecTail color separator a rest

/-! ## Compile-time helpers (`src/src/meta.cpp`) -/

/-- `pe::constexpr_for<Start, End, Inc>(lambda)` from meta.cpp (lines 107–115),
embedded as the list of indices at which the lambda is invoked, in invocation order:
`if constexpr (Start < End)` invokes `lambda.template operator()<Start>()` and recurses
at `Start + Inc`.  The recursion is well-founded exactly when `Inc ≥ 1` (for `Inc = 0`
and `Start < End` the C++ template recursion does not terminate and the program is
ill-formed, which the extra `0 < inc` conjunct in the guard rules out; it does not
change the function on any instantiable input). -/
def constexpr_for (start e inc : Nat) : List Nat :=
  if _h : start < e ∧ 0 < inc then
    start :: constexpr_for (start + inc) e inc
  else
    []
termination_by e - start
decreasing_by omega

/-! ## The `Window` task (`src/src/window.cpp`) -/

/-- `pe::Affinity` (spec §3; window.cpp uses `Affinity::eMainThread`). -/
inductive Affinity
  | eAnyWorker
  | eMainThread
deriving DecidableEq, Repr

/-- Modelled from the spec: `Priority` is an ordered enumeration controlling selection
among runnable tasks; its concrete values are not in the source tree and are irrelevant
to the claims. -/
inductive Priority
  | eLow
  | eNormal
  | eHigh
deriving DecidableEq, Repr

/-- Modelled from the spec: `CreateMode` controls whether the task begins executing
immediately upon creation or remains dormant until the first message. -/
inductive CreateMode
  | eImmediateStart
  | eDormant
deriving DecidableEq, Repr

/-- The configuration record a successfully constructed `Window` task carries (the
base-class `Task` state relevant to the claims). -/
structure WindowTask where
  priority : Priority
  mode : CreateMode
  affinity : Affinity
deriving DecidableEq, Repr

/-- `Window::Window` from window.cpp (lines 93–99): after delegating to the base
constructor it checks `affinity != Affinity::eMainThread` and throws
`std::invalid_argument` — the task object never comes into existence on that path.
The thrown exception is embedded as the `error` branch carrying the source's message
string. -/
def Window.construct (priority : Priority) (mode : CreateMode)
    (affinity : Affinity) : Except String WindowTask :=
  if affinity ≠ Affinity.eMainThread then
    .error "Task must have main thread affinity."
  else
    .ok { priority := priority, mode := mode, affinity := affinity }

/-- The type-erased `std::any` payload of a Message, restricted to the alternatives
relevant to the `Window` protocol: either a `std::string`, or a value of any other
type (identified by its type name). -/
inductive Payload
  | string (s : String)
  | other (tyName : String)
deriving DecidableEq, Repr

/-- `std::any_cast<std::string>` as used in `Window::Run`: recovers the string when the
payload holds one and otherwise throws `std::bad_any_cast`, embedded as the `error`
branch. -/
def any_cast_string : Payload → Except String String
  | .string s => .ok s
  | .other _ => .error "bad any_cast"

/-- A Message as received by `Window::Run`: a weak sender reference (embedded as a
registry key, see `TaskRegistry`), the operation tag `m_header`, and the type-erased
payload. -/
structure WMessage where
  m_sender : Nat
  m_header : Nat
  m_payload : Payload
deriving DecidableEq, Repr

/-- `WindowOperation::eSetTitle` from window.cpp: the single operation tag, value 0. -/
def eSetTitle : Nat := 0

/-- One iteration of the message loop in `Window::Run` (window.cpp lines 79–88),
up to the `Reply`: the switch on `static_cast<WindowOperation>(msg.m_header)` runs
`any_cast<std::string>(msg.m_payload)` and `window.SetTitle(title)` in the `eSetTitle`
case (a tag matching no case falls through the switch).  The result is the title
passed to `SetTitle`, if any; an escaping `std::bad_any_cast` is the `error` branch —
nothing in `Run` catches it, and per spec §7(d) an exception escaping a Task's routine
is an unrecoverable logic error that terminates the process. -/
def Window.handleMessage (msg : WMessage) : Except String (Option String) :=
  if msg.m_header = eSetTitle then
    match any_cast_string msg.m_payload with
    | .ok title => .ok (some title)
    | .error e => .error e
  else
    .ok none

/-! ## Reply routing via the weak sender reference

Modelled from the spec (§4.3, §9): the weak sender reference is a lookup key into the
Task registry plus a liveness check at reply time; `Reply` enqueues into the sender's
mailbox when the sender is still alive and otherwise drops the reply without surfacing
any error.
-/

/-- Modelled from the spec: the registry of live Tasks and their mailboxes, with reply
payloads abstract in `μ`.  `mailboxes` gives each task id's pending messages in
arrival order. -/
structure TaskRegistry (μ : Type) where
  live : List Nat
  mailboxes : Nat → List μ

/-- `msg.m_sender.lock()` from window.cpp: locking the weak sender reference yields
the task handle when the task still exists and null otherwise (modelled from the spec:
liveness is membership in the registry). -/
def TaskRegistry.lock {μ : Type} (reg : TaskRegistry μ) (sender : Nat) : Option Nat :=
  if sender ∈ reg.live then some sender else none

/-- Modelled from the spec: `Reply(target, payload)` enqueues the payload into the
target's mailbox when the locked handle is non-null and is a no-op when it is null
(the reply is dropped).  Its return type carries no error channel: no error is
surfaced to the replying Task. -/
def Reply {μ : Type} (reg : TaskRegistry μ) (target : Option Nat) (m : μ) :
    TaskRegistry μ :=
  match target with
  | none => reg
  | some t =>
    { reg with mailboxes := Function.update reg.mailboxes t (reg.mailboxes t ++ [m]) }

/-- The reply step of `Window::Run`: `Reply(msg.m_sender.lock(), payload)` — the reply
is addressed via the weak sender reference captured in the received message. -/
def Window.reply {μ : Type} (reg : TaskRegistry μ) (msg : WMessage) (m : μ) :
    TaskRegistry μ :=
  Reply reg (reg.lock msg.m_sender) m

/-! ## Per-sender FIFO (spec §5)

Modelled from the spec: the mailbox queue is FIFO ("delivered in mailbox arrival
order", §4.3), so the receiver consumes messages in exactly the order they were
enqueued; an execution of several concurrent senders enqueues some interleaving of the
senders' program-ordered send sequences.  `IsInterleaving trace sends` says the arrival
sequence `trace` is such an interleaving: each sender `i`'s messages occur in `trace`
in the order of its send list `sends i`.
-/

/-- `IsInterleaving trace sends`: `trace` is a merge of the per-sender send sequences
`sends`, preserving each sender's program order. -/
inductive IsInterleaving {ι μ : Type} [DecidableEq ι] :
    List (ι × μ) → (ι → List μ) → Prop
  | nil (sends : ι → List μ) (h : ∀ i, sends i = []) : IsInterleaving [] sends
  | cons (i : ι) (m : μ) (tr : List (ι × μ)) (sends : ι → List μ) (rest : List μ)
      (hi : sends i = m :: rest)
      (h : IsInterleaving tr (Function.update sends i rest)) :
      IsInterleaving ((i, m) :: tr) sends

/-- The subsequence of a receiver's arrival trace contributed by sender `S`, in
delivery order (the mailbox is FIFO, so delivery order is arrival order). -/
def receivedFrom {ι μ : Type} [DecidableEq ι] (trace : List (ι × μ)) (S : ι) :
    List μ :=
  (trace.filter (fun p => decide (p.1 = S))).map Prod.snd

/-! ## The multi-producer/multi-consumer queue test
(`src/test/test_lockfree_queue.cpp`)

The test launches `P` producer threads and `C` consumer threads over two queues
(`queue` and `result`).  Each producer loops while `produced < kNumValues`: it claims
the next value `expected` by a compare-and-swap on the shared atomic counter
`produced` (returning early when the counter has reached `kNumValues`) and then
enqueues the claimed value.  Each consumer loops while `consumed < kNumValues`: it
dequeues (retrying when the queue is momentarily empty), enqueues the element into
`result`, and increments the shared atomic counter `consumed` by a compare-and-swap.
(`consumed.compare_exchange_weak(expected, consumed + 1, …)` increments by exactly one:
the counter is monotone, so when the CAS succeeds the load inside the desired value
saw the same counter value as `expected`.)

The queue implementation is not in the source tree; per the spec (§4.1) its concurrent
`Enqueue`/`Dequeue` are linearizable, so a run of the test is an interleaving of the
atomic steps below over a sequential FIFO queue.  The test instantiates the `Queue`
concept with `Enqueue` returning `void`, i.e. every enqueue in this workload succeeds
(the spec's §9 records the capacity policy as an open question); the model therefore
tracks the queues as unbounded FIFO lists.
-/

/-- Control state of one producer thread: at the top of its while loop, holding a
claimed value it is about to enqueue, or returned. -/
inductive PState
  | idle
  | holding (v : Nat)
  | done
deriving DecidableEq, Repr

/-- Control state of one consumer thread: at the top of its while loop, holding a
dequeued value it is about to push into the result queue, about to increment
`consumed`, or returned. -/
inductive CState
  | idle
  | holding (v : Nat)
  | incPending
  | done
deriving DecidableEq, Repr

/-- A configuration of the queue test with `P` producer and `C` consumer threads:
the two shared atomic counters, the two queues (contents in FIFO order), and every
thread's control state. -/
structure TestState (P C : Nat) where
  produced : Nat
  consumed : Nat
  queue : List Nat
  result : List Nat
  prod : Fin P → PState
  cons : Fin C → CState

/-- The initial configuration: both counters zero, both queues empty, every thread at
the top of its loop. -/
def initState (P C : Nat) : TestState P C :=
  { produced := 0, consumed := 0, queue := [], result := [],
    prod := fun _ => .idle, cons := fun _ => .idle }

/-- One atomic step of the queue test with target count `N` (= `kNumValues`).  Each
constructor is one linearized atomic action of a thread of
`test_lockfree_queue.cpp`. -/
inductive TestStep (N : Nat) {P C : Nat} : TestState P C → TestState P C → Prop
  | claim (s : TestState P C) (i : Fin P)
      (h : s.prod i = .idle) (hlt : s.produced < N) :
      TestStep N s { s with produced := s.produced + 1,
                            prod := Function.update s.prod i (.holding s.produced) }
  | prodExit (s : TestState P C) (i : Fin P)
      (h : s.prod i = .idle) (hge : N ≤ s.produced) :
      TestStep N s { s with prod := Function.update s.prod i .done }
  | enqueue (s : TestState P C) (i : Fin P) (v : Nat)
      (h : s.prod i = .holding v) :
      TestStep N s { s with queue := s.queue ++ [v],
                            prod := Function.update s.prod i .idle }
  | dequeueEmpty (s : TestState P C) (j : Fin C)
      (h : s.cons j = .idle) (hlt : s.consumed < N) (hq : s.queue = []) :
      TestStep N s s
  | dequeue (s : TestState P C) (j : Fin C) (v : Nat) (rest : List Nat)
      (h : s.cons j = .idle) (hlt : s.consumed < N) (hq : s.queue = v :: rest) :
      TestStep N s { s with queue := rest,
                            cons := Function.update s.cons j (.holding v) }
  | collect (s : TestState P C) (j : Fin C) (v : Nat)
      (h : s.cons j = .holding v) :
      TestStep N s { s with result := s.result ++ [v],
                            cons := Function.update s.cons j .incPending }
  | countConsumed (s : TestState P C) (j : Fin C)
      (h : s.cons j = .incPending) :
      TestStep N s { s with consumed := s.consumed + 1,
                            cons := Function.update s.cons j .idle }
  | consExit (s : TestState P C) (j : Fin C)
      (h : s.cons j = .idle) (hge : N ≤ s.consumed) :
      TestStep N s { s with cons := Function.update s.cons j .done }

/-- A run of the test: a finite interleaving of atomic steps from the initial
configuration. -/
abbrev TestReaches (N : Nat) {P C : Nat} (s : TestState P C) : Prop :=
  Relation.ReflTransGen (TestStep N) (initState P C) s

/-- `test` in the source waits on every producer/consumer future: a completed run is
one where every thread has returned. -/
def Terminal {P C : Nat} (s : TestState P C) : Prop :=
  (∀ i, s.prod i = PState.done) ∧ (∀ j, s.cons j = CState.done)

/-- The value a producer's control state holds, as a multiset. -/
def pHeld : PState → Multiset Nat
  | .holding v => {v}
  | .idle => 0
  | .done => 0

/-- The value a consumer's control state holds (dequeued but not yet pushed into the
result queue), as a multiset. -/
def cHeld : CState → Multiset Nat
  | .holding v => {v}
  | .idle => 0
  | .incPending => 0
  | .done => 0

/-- Whether a consumer has pushed into the result queue but not yet incremented
`consumed` (counts 1 in that window). -/
def cPend : CState → Nat
  | .incPending => 1
  | .idle => 0
  | .holding _ => 0
  | .done => 0

/-- The multiset of values held by the producer threads. -/
def pSum {P : Nat} (f : Fin P → PState) : Multiset Nat :=
  ∑ i, pHeld (f i)

/-- The multiset of values held by the consumer threads. -/
def cSum {C : Nat} (f : Fin C → CState) : Multiset Nat :=
  ∑ j, cHeld (f j)

/-- The number of consumers between their result-push and their `consumed`
increment. -/
def pendSum {C : Nat} (f : Fin C → CState) : Nat :=
  ∑ j, cPend (f j)

/-- Every claimed value is in exactly one place: some producer's hand, the queue,
some consumer's hand, or the result queue. -/
def inFlight {P C : Nat} (s : TestState P C) : Multiset Nat :=
  pSum s.prod + (s.queue : Multiset Nat) + cSum s.cons + (s.result : Multiset Nat)

/-- The inductive invariant of the queue test. -/
structure TestInv (N : Nat) {P C : Nat} (s : TestState P C) : Prop where
  prod_le : s.produced ≤ N
  count_eq : s.result.length = s.consumed + pendSum s.cons
  mass : inFlight s = Multiset.range s.produced
  cons_done : ∀ j, s.cons j = CState.done → N ≤ s.consumed

/-- `verify` from test_lockfree_queue.cpp (lines 122–140): drain the result queue into
a `std::set`, assert the set's size equals `kNumValues`, then walk the set in
ascending order asserting its elements are `0, 1, 2, …` — i.e. the set is exactly
`[0, N)`.  Returns whether both assertions hold. -/
def verify (result : List Nat) (N : Nat) : Bool :=
  let set := result.foldl (fun (acc : Finset Nat) v => insert v acc) ∅
  decide (set.card = N) && decide (Finset.sort (· ≤ ·) set = List.range N)

/-- The states of the 1-producer/1-consumer/`N = 1` run used as the concrete witness
run: claim 0, enqueue it, producer exits, dequeue it, push it into the result queue,
count it, consumer exits. -/
def c1s0 : TestState 1 1 := initState 1 1

/-- Witness run, after the producer claims value 0. -/
def c1s1 : TestState 1 1 :=
  { c1s0 with produced := c1s0.produced + 1,
              prod := Function.update c1s0.prod 0 (.holding c1s0.produced) }

/-- Witness run, after the producer enqueues value 0. -/
def c1s2 : TestState 1 1 :=
  { c1s1 with queue := c1s1.queue ++ [0],
              prod := Function.update c1s1.prod 0 .idle }

/-- Witness run, after the producer observes `produced = 1` and returns. -/
def c1s3 : TestState 1 1 :=
  { c1s2 with prod := Function.update c1s2.prod 0 .done }

/-- Witness run, after the consumer dequeues value 0. -/
def c1s4 : TestState 1 1 :=
  { c1s3 with queue := [],
              cons := Function.update c1s3.cons 0 (.holding 0) }

/-- Witness run, after the consumer pushes value 0 into the result queue. -/
def c1s5 : TestState 1 1 :=
  { c1s4 with result := c1s4.result ++ [0],
              cons := Function.update c1s4.cons 0 .incPending }

/-- Witness run, after the consumer increments `consumed`. -/
def c1s6 : TestState 1 1 :=
  { c1s5 with consumed := c1s5.consumed + 1,
              cons := Function.update c1s5.cons 0 .idle }

/-- Witness run, after the consumer observes `consumed = 1` and returns. -/
def c1s7 : TestState 1 1 :=
  { c1s6 with cons := Function.update c1s6.cons 0 .done }

/-- Concrete send sequences for the per-sender-FIFO witness: sender `false` sends
`[10, 11]`, sender `true` sends `[20]`. -/
def c3sends : Bool → List Nat :=
  fun b => cond b [20] [10, 11]

/-- A concrete arrival trace interleaving `c3sends`: the second sender's message lands
between the first sender's two messages. -/
def c3trace : List (Bool × Nat) :=
  [(false, 10), (true, 20), (false, 11)]

/-- Concrete registry for the reply-routing witness: task 7 is alive with an empty
mailbox. -/
def c7reg : TaskRegistry Nat :=
  { live := [7], mailboxes := fun _ => [] }

/-- Concrete received message for the reply-routing witness: sent by task 7. -/
def c7msg : WMessage :=
  { m_sender := 7, m_header := 0, m_payload := .string "title" }

/-! # Theorems -/

/-! ## `constexpr_for` (claim C10) -/

/-- Membership characterization of `constexpr_for`, by induction on `e - start`. -/
theorem constexpr_for_mem_aux (e inc : Nat) (h1 : 0 < inc) (i : Nat) :
    ∀ (n start : Nat), e - start ≤ n →
      (i ∈ constexpr_for start e inc ↔ ∃ k, i = start + k * inc ∧ i < e) := by
  intro n
  induction n with
  | zero =>
    intro start hle
    rw [constexpr_for]
    have hno : ¬(start < e ∧ 0 < inc) := by omega
    rw [dif_neg hno]
    simp only [List.not_mem_nil, false_iff, not_exists, not_and]
    intro k hk
    omega
  | succ n ih =>
    intro start hle
    rw [constexpr_for]
    by_cases hse : start < e
    · rw [dif_pos ⟨hse, h1⟩, List.mem_cons, ih (start + inc) (by omega)]
      constructor
      · rintro (rfl | ⟨k, rfl, hk⟩)
        · exact ⟨0, by omega, hse⟩
        · exact ⟨k + 1, by ring_nf, hk⟩
      · rintro ⟨k, rfl, hk⟩
        cases k with
        | zero => left; omega
        | succ k => right; exact ⟨k, by ring_nf, hk⟩
    · rw [dif_neg (fun hh => hse hh.1)]
      simp only [List.not_mem_nil, false_iff, not_exists, not_and]
      intro k hk
      omega

/-- Sortedness of `constexpr_for`, by induction on `e - start`. -/
theorem constexpr_for_sorted_aux (e inc : Nat) (h1 : 0 < inc) :
    ∀ (n start : Nat), e - start ≤ n →
      List.Sorted (· < ·) (constexpr_for start e inc) := by
  intro n
  induction n with
  | zero =>
    intro start hle
    rw [constexpr_for, dif_neg (by omega)]
    exact List.sorted_nil
  | succ n ih =>
    intro start hle
    rw [constexpr_for]
    by_cases hse : start < e
    · rw [dif_pos ⟨hse, h1⟩]
      rw [List.sorted_cons]
      refine ⟨?_, ih (start + inc) (by omega)⟩
      intro b hb
      have := (constexpr_for_mem_aux e inc h1 b n (start + inc) (by omega)).mp hb
      obtain ⟨k, rfl, _⟩ := this
      omega
    · rw [dif_neg (fun hh => hse hh.1)]
      exact List.sorted_nil

/-- Claim C10: for every `Start`, `End` and `Inc` with `Inc ≥ 1`,
`constexpr_for<Start, End, Inc>(f)` terminates (the embedding is a total function)
and invokes `f` exactly once for each index in the arithmetic progression
`Start, Start + Inc, Start + 2·Inc, …` strictly below `End`, in increasing order
(the strictly-sorted invocation list contains each such index exactly once and nothing
else), with zero invocations when `Start ≥ End`. -/
theorem constexpr_for_correct (start e inc : Nat) (h1 : 1 ≤ inc) :
    List.Sorted (· < ·) (constexpr_for start e inc) ∧
    (∀ i, i ∈ constexpr_for start e inc ↔ ∃ k, i = start + k * inc ∧ i < e) ∧
    (e ≤ start → constexpr_for start e inc = []) := by
  refine ⟨constexpr_for_sorted_aux e inc h1 (e - start) start le_rfl, ?_, ?_⟩
  · intro i
    exact constexpr_for_mem_aux e inc h1 i (e - start) start le_rfl
  · intro hle
    rw [constexpr_for, dif_neg (by omega)]

/-- Witness for C10 at `Start = 0`, `End = 5`, `Inc = 2` (invocations `0, 2, 4`). -/
theorem constexpr_for_correct_witness :
    1 ≤ 2 ∧
    (List.Sorted (· < ·) (constexpr_for 0 5 2) ∧
     (∀ i, i ∈ constexpr_for 0 5 2 ↔ ∃ k, i = 0 + k * 2 ∧ i < 5) ∧
     (5 ≤ 0 → constexpr_for 0 5 2 = [])) :=
  ⟨by decide, constexpr_for_correct 0 5 2 (by decide)⟩

/-! ## Logger (claims C8, C9) -/

/-- The tail of the `log_ex` argument fold agrees with the specification-side
rendering: after the first argument, the separator emitted before `b` is empty exactly
when `b` or its left neighbour is `fmt::cat`. -/
theorem log_ex_args_eq_tail (color : TextColor) (separator : String) :
    ∀ (rest : List LogArg) (prev : LogArg),
      log_ex_args color separator false prev.isCat rest
        = bodySpecTail color separator prev rest := by
  intro rest
  induction rest with
  | nil => intro prev; rfl
  | cons b l ih =>
    intro prev
    simp only [log_ex_args, bodySpecTail, sepBetween, ih b, Bool.false_or]
    rw [Bool.or_comm]

/-- The `log_ex` argument fold equals the specification-side body. -/
theorem log_ex_body_eq_bodySpec (color : TextColor) (separator : String)
    (args : List LogArg) :
    log_ex_body color separator args = bodySpec color separator args := by
  cases args with
  | nil => rfl
  | cons a rest =>
    simp only [log_ex_body, log_ex_args, bodySpec, Bool.true_or, if_true]
    rw [log_ex_args_eq_tail color separator rest a]
    rfl

/-- Claim C9: in `log_ex`, the separator string is printed between every pair of
consecutive arguments, except that no separator is printed before the first argument
and none is printed immediately before or immediately after an argument of type
`fmt::cat` — i.e. the argument fold of `log_ex` renders exactly `bodySpec`, which
prints `sepBetween` (empty iff a neighbour is `fmt::cat`, the separator otherwise)
between each pair of consecutive arguments and nothing before the first. -/
theorem log_ex_separator_rule (color : TextColor) (separator : String)
    (args : List LogArg) :
    log_ex_body color separator args = bodySpec color separator args :=
  log_ex_body_eq_bodySpec color separator args

/-- Claim C8: `log(stream, mutex, level, args…)` renders the arguments in the given
order, each colorized with exactly the color `s_level_color_map` assigns to the
severity tag (`eInfo → eWhite`, `eNotice → eGreen`, `eWarning → eYellow`,
`eError → eRed`), and when a mutex is supplied the entire line — banner, arguments and
newline — is emitted between the mutex acquire and release. -/
theorem log_level_color_order_and_lock (pfx : String) (level : LogLevel)
    (args : List LogArg) :
    (s_level_color_map .eInfo = .eWhite ∧ s_level_color_map .eNotice = .eGreen ∧
     s_level_color_map .eWarning = .eYellow ∧ s_level_color_map .eError = .eRed) ∧
    log true pfx level args
      = [.acquire] ++ [.write pfx]
        ++ [.write (bodySpec (s_level_color_map level) " " args)]
        ++ [.write "\n"] ++ [.release] ∧
    log false pfx level args
      = [.write pfx] ++ [.write (bodySpec (s_level_color_map level) " " args)]
        ++ [.write "\n"] := by
  refine ⟨⟨rfl, rfl, rfl, rfl⟩, ?_, ?_⟩ <;>
    simp [log, log_ex, log_ex_body_eq_bodySpec]

/-! ## Queue enqueue contract (claim C2) -/

/-- Claim C2: `Enqueue(value)` never blocks (it is a total function of the current
state) and succeeds unless the queue is at its fixed capacity, in which case it fails
with the Full condition, reported to the enqueuing caller as a non-fatal failure — the
queue itself neither retries nor drops (the failing call leaves the queue unchanged
and merely returns the condition), so the caller chooses the policy. -/
theorem enqueue_full_condition {α : Type} (q : LockfreeQueue α) (v : α) :
    (q.items.length = q.capacity → q.Enqueue v = .error .eFull) ∧
    (q.items.length ≠ q.capacity →
      q.Enqueue v = .ok { q with items := q.items ++ [v] }) := by
  constructor <;> intro h <;> simp [LockfreeQueue.Enqueue, h]

/-- Witness for C2: a full queue of capacity 2 rejects with Full; a non-full one
appends. -/
theorem enqueue_full_condition_witness :
    LockfreeQueue.Enqueue ⟨2, [5, 6]⟩ 7 = .error .eFull ∧
    LockfreeQueue.Enqueue ⟨2, [5]⟩ 6 = .ok ⟨2, [5, 6]⟩ :=
  ⟨(enqueue_full_condition ⟨2, [5, 6]⟩ 7).1 (by decide),
   (enqueue_full_condition ⟨2, [5]⟩ 6).2 (by decide)⟩

/-! ## Closed-mailbox rejection (claim C4) -/

/-- Claim C4: every `Enqueue` attempt into a Terminated task's mailbox fails with the
Closed condition, never silently succeeds (no `ok` result exists, and the mailbox is
untouched by the failing call), while the task still answers queries about its own
final state. -/
theorem terminated_mailbox_closed {μ : Type} (t : TaskModel μ) (m : μ)
    (h : t.state = TaskState.eTerminated) :
    t.enqueueMessage m = .error .eClosed ∧
    (∀ t', t.enqueueMessage m ≠ .ok t') ∧
    t.queryState = TaskState.eTerminated := by
  refine ⟨?_, ?_, h⟩
  · simp [TaskModel.enqueueMessage, h]
  · intro t'
    simp [TaskModel.enqueueMessage, h]

/-- Witness for C4: a terminated task with an empty, capacity-4 mailbox rejects the
message 0 with Closed. -/
theorem terminated_mailbox_closed_witness :
    TaskModel.enqueueMessage (μ := Nat) ⟨.eTerminated, ⟨4, []⟩⟩ 0 = .error .eClosed ∧
    (∀ t', TaskModel.enqueueMessage (μ := Nat) ⟨.eTerminated, ⟨4, []⟩⟩ 0 ≠ .ok t') ∧
    TaskModel.queryState (μ := Nat) ⟨.eTerminated, ⟨4, []⟩⟩ = .eTerminated :=
  terminated_mailbox_closed ⟨.eTerminated, ⟨4, []⟩⟩ 0 rfl

/-! ## Affinity enforcement (claim C5) -/

/-- Claim C5: constructing a `Window` task with any affinity other than `eMainThread`
fails synchronously at creation time with the invalid-configuration error thrown by
`Window::Window`, and no task is produced (every successful construction has
`eMainThread` affinity, so the failure can never be deferred to a first resume). -/
theorem window_affinity_enforced :
    (∀ (p : Priority) (m : CreateMode) (a : Affinity), a ≠ Affinity.eMainThread →
      Window.construct p m a = .error "Task must have main thread affinity.") ∧
    (∀ (p : Priority) (m : CreateMode) (a : Affinity) (t : WindowTask),
      Window.construct p m a = .ok t → a = Affinity.eMainThread) := by
  constructor
  · intro p m a ha
    simp [Window.construct, ha]
  · intro p m a t h
    by_contra hne
    simp [Window.construct, hne] at h

/-- Witness for C5: requesting `eAnyWorker` affinity fails at creation with the
source's error message. -/
theorem window_affinity_enforced_witness :
    Window.construct .eNormal .eDormant .eAnyWorker
      = .error "Task must have main thread affinity." :=
  window_affinity_enforced.1 .eNormal .eDormant .eAnyWorker (by decide)

/-! ## Payload-type mismatch (claim C6) -/

/-- Claim C6: when `Window::Run` receives an `eSetTitle` message whose type-erased
payload does not hold a `std::string`, the `any_cast` mismatch escapes as
`std::bad_any_cast` (the `error` branch: nothing in `Run` catches it, and per spec
§7(d) an exception escaping a Task's routine is an unrecoverable logic error that
terminates the process, with no partial-state recovery — no title is applied on that
path).  Conversely, a mismatch is the only way a received message is fatal. -/
theorem window_payload_mismatch_fatal :
    (∀ msg : WMessage, msg.m_header = eSetTitle →
      (∀ s, msg.m_payload ≠ Payload.string s) →
      Window.handleMessage msg = .error "bad any_cast") ∧
    (∀ (msg : WMessage) (e : String), Window.handleMessage msg = .error e →
      msg.m_header = eSetTitle ∧ ∀ s, msg.m_payload ≠ Payload.string s) := by
  constructor
  · intro msg h0 hp
    cases hpay : msg.m_payload with
    | string s => exact absurd hpay (hp s)
    | other ty => simp [Window.handleMessage, h0, any_cast_string, hpay]
  · intro msg e h
    by_cases h0 : msg.m_header = eSetTitle
    · refine ⟨h0, ?_⟩
      intro s hs
      simp [Window.handleMessage, h0, any_cast_string, hs] at h
    · simp [Window.handleMessage, h0] at h

/-- Witness for C6: an `eSetTitle` message whose payload holds an `int` is fatal. -/
theorem window_payload_mismatch_fatal_witness :
    Window.handleMessage ⟨3, 0, .other "int"⟩ = .error "bad any_cast" :=
  window_payload_mismatch_fatal.1 ⟨3, 0, .other "int"⟩ rfl (fun s h => by cases h)

/-! ## Reply routing (claim C7) -/

/-- Claim C7: the reply `Window::Run` issues is routed via the weak sender reference
captured in the received message: when the sender still exists the reply lands at the
end of exactly that sender's mailbox (all other mailboxes untouched), and when the
sender no longer exists the reply is dropped — the registry is unchanged and `Reply`'s
type surfaces no error to the replying task. -/
theorem reply_routed_via_weak_sender {μ : Type} (reg : TaskRegistry μ)
    (msg : WMessage) (m : μ) :
    (msg.m_sender ∈ reg.live →
      (Window.reply reg msg m).mailboxes msg.m_sender
          = reg.mailboxes msg.m_sender ++ [m] ∧
      ∀ t, t ≠ msg.m_sender →
        (Window.reply reg msg m).mailboxes t = reg.mailboxes t) ∧
    (msg.m_sender ∉ reg.live → Window.reply reg msg m = reg) := by
  constructor
  · intro hl
    unfold Window.reply TaskRegistry.lock Reply
    rw [if_pos hl]
    constructor
    · simp
    · intro t ht
      simp [Function.update_noteq ht]
  · intro hl
    unfold Window.reply TaskRegistry.lock Reply
    rw [if_neg hl]

/-- Witness for C7: replying to live task 7 appends to its mailbox. -/
theorem reply_routed_via_weak_sender_witness :
    (Window.reply c7reg c7msg 5).mailboxes c7msg.m_sender
        = c7reg.mailboxes c7msg.m_sender ++ [5] ∧
    ∀ t, t ≠ c7msg.m_sender →
      (Window.reply c7reg c7msg 5).mailboxes t = c7reg.mailboxes t :=
  (reply_routed_via_weak_sender c7reg c7msg 5).1 (by decide)

/-! ## Per-sender FIFO (claim C3) -/

/-- The per-sender projection of any interleaved arrival trace is that sender's send
sequence, by induction on the interleaving. -/
theorem isInterleaving_receivedFrom {ι μ : Type} [DecidableEq ι] :
    ∀ {trace : List (ι × μ)} {sends : ι → List μ}, IsInterleaving trace sends →
      ∀ S, receivedFrom trace S = sends S := by
  intro trace sends h
  induction h with
  | nil sends h =>
    intro S
    simp [receivedFrom, h S]
  | cons i m tr sends rest hi h ih =>
    intro S
    rcases eq_or_ne S i with rfl | hS
    · simp only [receivedFrom, List.filter_cons]
      rw [if_pos (by simp), List.map_cons]
      have := ih S
      simp only [receivedFrom] at this
      rw [this, Function.update_same, hi]
    · simp only [receivedFrom, List.filter_cons]
      rw [if_neg (by simp [Ne.symm hS])]
      have := ih S
      simp only [receivedFrom] at this
      rw [this, Function.update_noteq hS]

/-- Claim C3: for every pair of tasks (sender `S`, receiver `R`) the messages `R`
dequeues from its FIFO mailbox that originate from `S` appear exactly in `S`'s send
order, for any interleaving of other senders (the per-sender projection of the arrival
trace equals `S`'s send sequence, so `m1` sent before `m2` is received before `m2`);
and no ordering is guaranteed across different senders: the same send sequences admit
arrival traces that order two different senders' messages both ways. -/
theorem per_sender_fifo_ordering :
    (∀ (ι μ : Type) [DecidableEq ι] (trace : List (ι × μ)) (sends : ι → List μ),
      IsInterleaving trace sends → ∀ S, receivedFrom trace S = sends S) ∧
    (∃ (sends : Bool → List Nat) (t1 t2 : List (Bool × Nat)),
      IsInterleaving t1 sends ∧ IsInterleaving t2 sends ∧ t1 ≠ t2) := by
  constructor
  · intro ι μ _ trace sends h S
    exact isInterleaving_receivedFrom h S
  · refine ⟨fun b => cond b [1] [0], [(false, 0), (true, 1)], [(true, 1), (false, 0)],
      ?_, ?_, by decide⟩
    · refine IsInterleaving.cons false 0 _ _ [] rfl ?_
      refine IsInterleaving.cons true 1 _ _ [] ?_ ?_
      · simp [Function.update]
      · refine IsInterleaving.nil _ ?_
        intro b
        cases b <;> simp [Function.update]
    · refine IsInterleaving.cons true 1 _ _ [] rfl ?_
      refine IsInterleaving.cons false 0 _ _ [] ?_ ?_
      · simp [Function.update]
      · refine IsInterleaving.nil _ ?_
        intro b
        cases b <;> simp [Function.update]

/-- Witness for C3: the concrete trace `c3trace` interleaves `c3sends`, and the
receiver recovers each sender's messages in send order. -/
theorem per_sender_fifo_ordering_witness :
    ∀ S, receivedFrom c3trace S = c3sends S :=
  per_sender_fifo_ordering.1 Bool Nat c3trace c3sends
    (by
      refine IsInterleaving.cons false 10 _ _ [11] rfl ?_
      refine IsInterleaving.cons true 20 _ _ [] ?_ ?_
      · simp [Function.update, c3sends]
      · refine IsInterleaving.cons false 11 _ _ [] ?_ ?_
        · simp [Function.update, c3sends]
        · refine IsInterleaving.nil _ ?_
          intro b
          cases b <;> simp [Function.update, c3sends])

/-! ## The queue test (claim C1) -/

/-- Updating one slot of a finite family exchanges that slot's contribution to the
pointwise sum: `h (f i) + ∑ (after) = h b + ∑ (before)`. -/
theorem sum_update_split {n : Nat} {M σ : Type} [AddCommMonoid M] (h : σ → M)
    (f : Fin n → σ) (i : Fin n) (b : σ) :
    h (f i) + ∑ x, h (Function.update f i b x) = h b + ∑ x, h (f x) := by
  have h1 : (fun x => h (Function.update f i b x))
      = Function.update (fun x => h (f x)) i (h b) := by
    funext x
    rcases eq_or_ne x i with rfl | hx
    · simp
    · simp [Function.update_noteq hx]
  rw [h1, Finset.sum_update_of_mem (Finset.mem_univ i),
    Finset.sum_eq_sum_diff_singleton_add (Finset.mem_univ i) (fun x => h (f x))]
  abel

/-- `sum_update_split` specialized to the producers' held values. -/
theorem pSum_update {P : Nat} (f : Fin P → PState) (i : Fin P) (b : PState) :
    pHeld (f i) + pSum (Function.update f i b) = pHeld b + pSum f :=
  sum_update_split pHeld f i b

/-- `sum_update_split` specialized to the consumers' held values. -/
theorem cSum_update {C : Nat} (f : Fin C → CState) (j : Fin C) (b : CState) :
    cHeld (f j) + cSum (Function.update f j b) = cHeld b + cSum f :=
  sum_update_split cHeld f j b

/-- `sum_update_split` specialized to the pending-increment count. -/
theorem pendSum_update {C : Nat} (f : Fin C → CState) (j : Fin C) (b : CState) :
    cPend (f j) + pendSum (Function.update f j b) = cPend b + pendSum f :=
  sum_update_split cPend f j b

/-- The invariant holds in the initial configuration. -/
theorem testInv_init (N P C : Nat) : TestInv N (initState P C) := by
  refine ⟨Nat.zero_le N, ?_, ?_, ?_⟩
  · simp [initState, pendSum, cPend]
  · simp [inFlight, initState, pSum, cSum, pHeld, cHeld]
  · intro j hj
    simp [initState] at hj

/-- Every atomic step of the queue test preserves the invariant. -/
theorem testInv_step {N P C : Nat} {s s' : TestState P C}
    (hs : TestStep N s s') (hinv : TestInv N s) : TestInv N s' := by
  obtain ⟨hp, hc, hm, hd⟩ := hinv
  cases hs with
  | claim i h hlt =>
    have key := pSum_update s.prod i (.holding s.produced)
    rw [h] at key
    rw [show pHeld PState.idle = 0 from rfl, zero_add] at key
    rw [show pHeld (PState.holding s.produced) = {s.produced} from rfl] at key
    refine ⟨?_, hc, ?_, hd⟩
    · show s.produced + 1 ≤ N
      omega
    show pSum (Function.update s.prod i (.holding s.produced)) + ↑s.queue
        + cSum s.cons + ↑s.result = Multiset.range (s.produced + 1)
    rw [key, Multiset.range_succ, ← Multiset.singleton_add]
    unfold inFlight at hm
    rw [← hm]
    abel
  | prodExit i h hge =>
    have key := pSum_update s.prod i .done
    rw [h] at key
    rw [show pHeld PState.idle = 0 from rfl, zero_add] at key
    rw [show pHeld PState.done = 0 from rfl, zero_add] at key
    refine ⟨hp, hc, ?_, hd⟩
    show pSum (Function.update s.prod i .done) + ↑s.queue
        + cSum s.cons + ↑s.result = Multiset.range s.produced
    rw [key]
    exact hm
  | enqueue i v h =>
    have key := pSum_update s.prod i .idle
    rw [h] at key
    rw [show pHeld (PState.holding v) = {v} from rfl] at key
    rw [show pHeld PState.idle = 0 from rfl, zero_add] at key
    refine ⟨hp, hc, ?_, hd⟩
    show pSum (Function.update s.prod i .idle) + ↑(s.queue ++ [v])
        + cSum s.cons + ↑s.result = Multiset.range s.produced
    rw [← Multiset.coe_add, show ((([v] : List Nat)) : Multiset Nat) = {v} from rfl]
    unfold inFlight at hm
    rw [← hm, ← key]
    abel
  | dequeueEmpty j h hlt hq =>
    exact ⟨hp, hc, hm, hd⟩
  | dequeue j v rest h hlt hq =>
    have key := cSum_update s.cons j (.holding v)
    rw [h] at key
    rw [show cHeld CState.idle = 0 from rfl, zero_add] at key
    rw [show cHeld (CState.holding v) = {v} from rfl] at key
    have keyp := pendSum_update s.cons j (.holding v)
    rw [h] at keyp
    rw [show cPend CState.idle = 0 from rfl, zero_add] at keyp
    rw [show cPend (CState.holding v) = 0 from rfl, zero_add] at keyp
    refine ⟨hp, ?_, ?_, ?_⟩
    · show s.result.length = s.consumed + pendSum (Function.update s.cons j (.holding v))
      rw [keyp]
      exact hc
    · show pSum s.prod + ↑rest + cSum (Function.update s.cons j (.holding v))
          + ↑s.result = Multiset.range s.produced
      rw [key]
      unfold inFlight at hm
      rw [hq] at hm
      rw [← Multiset.cons_coe, ← Multiset.singleton_add] at hm
      rw [← hm]
      abel
    · intro j' hj'
      have hj2 : Function.update s.cons j (CState.holding v) j' = CState.done := hj'
      show N ≤ s.consumed
      rcases eq_or_ne j' j with rfl | hne
      · rw [Function.update_same] at hj2
        cases hj2
      · rw [Function.update_noteq hne] at hj2
        exact hd j' hj2
  | collect j v h =>
    have key := cSum_update s.cons j .incPending
    rw [h] at key
    rw [show cHeld (CState.holding v) = {v} from rfl] at key
    rw [show cHeld CState.incPending = 0 from rfl, zero_add] at key
    have keyp := pendSum_update s.cons j .incPending
    rw [h] at keyp
    rw [show cPend (CState.holding v) = 0 from rfl, zero_add] at keyp
    rw [show cPend CState.incPending = 1 from rfl] at keyp
    refine ⟨hp, ?_, ?_, ?_⟩
    · show (s.result ++ [v]).length
          = s.consumed + pendSum (Function.update s.cons j .incPending)
      simp only [List.length_append, List.length_singleton]
      omega
    · show pSum s.prod + ↑s.queue + cSum (Function.update s.cons j .incPending)
          + ↑(s.result ++ [v]) = Multiset.range s.produced
      rw [← Multiset.coe_add, show ((([v] : List Nat)) : Multiset Nat) = {v} from rfl]
      unfold inFlight at hm
      rw [← hm, ← key]
      abel
    · intro j' hj'
      have hj2 : Function.update s.cons j CState.incPending j' = CState.done := hj'
      show N ≤ s.consumed
      rcases eq_or_ne j' j with rfl | hne
      · rw [Function.update_same] at hj2
        cases hj2
      · rw [Function.update_noteq hne] at hj2
        exact hd j' hj2
  | countConsumed j h =>
    have key := cSum_update s.cons j .idle
    rw [h] at key
    rw [show cHeld CState.incPending = 0 from rfl, zero_add] at key
    rw [show cHeld CState.idle = 0 from rfl, zero_add] at key
    have keyp := pendSum_update s.cons j .idle
    rw [h] at keyp
    rw [show cPend CState.incPending = 1 from rfl] at keyp
    rw [show cPend CState.idle = 0 from rfl, zero_add] at keyp
    refine ⟨hp, ?_, ?_, ?_⟩
    · show s.result.length = s.consumed + 1 + pendSum (Function.update s.cons j .idle)
      omega
    · show pSum s.prod + ↑s.queue + cSum (Function.update s.cons j .idle)
          + ↑s.result = Multiset.range s.produced
      rw [key]
      exact hm
    · intro j' hj'
      have hj2 : Function.update s.cons j CState.idle j' = CState.done := hj'
      show N ≤ s.consumed + 1
      rcases eq_or_ne j' j with rfl | hne
      · rw [Function.update_same] at hj2
        cases hj2
      · rw [Function.update_noteq hne] at hj2
        have := hd j' hj2
        omega
  | consExit j h hge =>
    have key := cSum_update s.cons j .done
    rw [h] at key
    rw [show cHeld CState.idle = 0 from rfl, zero_add] at key
    rw [show cHeld CState.done = 0 from rfl, zero_add] at key
    have keyp := pendSum_update s.cons j .done
    rw [h] at keyp
    rw [show cPend CState.idle = 0 from rfl, zero_add] at keyp
    rw [show cPend CState.done = 0 from rfl, zero_add] at keyp
    refine ⟨hp, ?_, ?_, ?_⟩
    · show s.result.length = s.consumed + pendSum (Function.update s.cons j .done)
      rw [keyp]
      exact hc
    · show pSum s.prod + ↑s.queue + cSum (Function.update s.cons j .done)
          + ↑s.result = Multiset.range s.produced
      rw [key]
      exact hm
    · intro j' hj'
      have hj2 : Function.update s.cons j CState.done j' = CState.done := hj'
      show N ≤ s.consumed
      rcases eq_or_ne j' j with rfl | hne
      · exact hge
      · rw [Function.update_noteq hne] at hj2
        exact hd j' hj2

/-- The invariant holds in every reachable configuration. -/
theorem testInv_reaches {N P C : Nat} {s : TestState P C}
    (h : TestReaches N s) : TestInv N s := by
  induction h with
  | refl => exact testInv_init N P C
  | tail _ hstep ih => exact testInv_step hstep ih

/-- The accumulating `std::set` insertion loop of `verify`, as a fold. -/
theorem foldl_insert_toFinset :
    ∀ (l : List Nat) (acc : Finset Nat),
      l.foldl (fun acc v => insert v acc) acc = acc ∪ l.toFinset := by
  intro l
  induction l with
  | nil =>
    intro acc
    simp
  | cons a t ih =>
    intro acc
    rw [List.foldl_cons, ih, List.toFinset_cons, Finset.union_insert,
      Finset.insert_union]

/-- Claim C1: for any completed run of the queue test in which the producer threads
collectively inject the integers `0, …, N-1` (each claimed via the shared `produced`
counter) and the consumer threads drain them into the result collector, the multiset
recovered from the result collector is exactly the multiset injected, and the `verify`
step succeeds: the `std::set` it builds has size `N` and contains every integer in
`[0, N)` exactly once.  This holds for every thread count (`P` producers, `C ≥ 1`
consumers) and every `N`, in particular for the tested `P = C = 32`,
`N = 10,000,000`. -/
theorem lockfree_queue_test_no_loss_no_dup (P C N : Nat) (hC : 0 < C)
    (s : TestState P C) (hreach : TestReaches N s) (hterm : Terminal s) :
    (s.result : Multiset Nat) = Multiset.range N ∧ verify s.result N = true := by
  obtain ⟨hp, hc, hm, hd⟩ := testInv_reaches hreach
  obtain ⟨hprod, hcons⟩ := hterm
  have hpend : pendSum s.cons = 0 :=
    Finset.sum_eq_zero (fun j _ => by rw [hcons j]; rfl)
  have hps : pSum s.prod = 0 :=
    Finset.sum_eq_zero (fun i _ => by rw [hprod i]; rfl)
  have hcs : cSum s.cons = 0 :=
    Finset.sum_eq_zero (fun j _ => by rw [hcons j]; rfl)
  have hNc : N ≤ s.consumed := hd ⟨0, hC⟩ (hcons ⟨0, hC⟩)
  have hlen : s.result.length = s.consumed := by
    omega
  have hmass : (s.queue : Multiset Nat) + (s.result : Multiset Nat)
      = Multiset.range s.produced := by
    unfold inFlight at hm
    rw [hps, hcs] at hm
    rw [← hm]
    abel
  have hcard : s.queue.length + s.result.length = s.produced := by
    have hcg := congrArg Multiset.card hmass
    simpa using hcg
  have hqlen : s.queue.length = 0 := by omega
  have hprodN : s.produced = N := by omega
  have hq : s.queue = [] := List.length_eq_zero.mp hqlen
  have hres : (s.result : Multiset Nat) = Multiset.range N := by
    rw [hq] at hmass
    rw [← hprodN, ← hmass]
    simp
  refine ⟨hres, ?_⟩
  have hset : s.result.foldl (fun acc v => insert v acc) ∅ = Finset.range N := by
    rw [foldl_insert_toFinset, Finset.empty_union]
    have hfin : s.result.toFinset = Finset.range N := by
      ext x
      rw [List.mem_toFinset, Finset.mem_range, ← Multiset.mem_coe, hres,
        Multiset.mem_range]
    exact hfin
  simp only [verify, hset, Finset.card_range, Finset.sort_range]
  simp

/-- Witness for C1: the explicit seven-step run `c1s0 → … → c1s7` of the test with one
producer, one consumer and `N = 1` terminates with result collector `[0]`, and
`verify` accepts it. -/
theorem lockfree_queue_test_no_loss_no_dup_witness :
    (c1s7.result : Multiset Nat) = Multiset.range 1 ∧ verify c1s7.result 1 = true :=
  lockfree_queue_test_no_loss_no_dup 1 1 1 (by decide) c1s7
    (Relation.ReflTransGen.head
      (show TestStep 1 c1s0 c1s1 from TestStep.claim c1s0 0 rfl (by decide))
      (Relation.ReflTransGen.head
        (show TestStep 1 c1s1 c1s2 from TestStep.enqueue c1s1 0 0 rfl)
        (Relation.ReflTransGen.head
          (show TestStep 1 c1s2 c1s3 from TestStep.prodExit c1s2 0 rfl (by decide))
          (Relation.ReflTransGen.head
            (show TestStep 1 c1s3 c1s4 from
              TestStep.dequeue c1s3 0 0 [] rfl (by decide) rfl)
            (Relation.ReflTransGen.head
              (show TestStep 1 c1s4 c1s5 from TestStep.collect c1s4 0 0 rfl)
              (Relation.ReflTransGen.head
                (show TestStep 1 c1s5 c1s6 from TestStep.countConsumed c1s5 0 rfl)
                (Relation.ReflTransGen.head
                  (show TestStep 1 c1s6 c1s7 from
                    TestStep.consExit c1s6 0 rfl (by decide))
                  Relation.ReflTransGen.refl)))))))
    (by constructor <;> intro x <;> fin_cases x <;> rfl)

end pe






